import Mathlib

/-!
Verification of the BrittleFracture integrator (src/Integrator/Flame.cpp,
second translation unit, namespace Integrator).

Modelling conventions:
* `Set::Scalar` (a C++ double) is modelled as `ℚ` with exact arithmetic.
  Claims that are specifically about IEEE special values (NaN, infinity)
  are settled against a dedicated model `FP` below that carries NaN and
  signed infinities explicitly; rounding is not modelled anywhere, since
  no claim concerns rounding.
* The stencil library (Numeric::Laplacian, Numeric::Gradient,
  Numeric::Interpolate::NodeToCellAverage) and std::atan2 are external
  collaborators; their per-cell results enter the embedded kernels as
  inputs, and atan2 as an uninterpreted function parameter, because no
  claim depends on their analytic values.
* The crack-potential model (Model::Interface::Crack, variants Constant
  and Sin) is dispatched through the `boundary` pointer; its code is not
  part of this translation unit, so the kernels are parametric in a
  `CrackModel` record of the operations the source calls.
-/

namespace BrittleFracture

/-- Interface of the crack-potential model (`boundary`), as called by the
source: g_phi, Dg_phi and Dw_phi are invoked with the damage value and a
second argument that the source always passes as 0; Epc and kappa take the
orientation angle; GetMobility takes the damage value. -/
structure CrackModel where
  g_phi : ℚ → ℚ → ℚ
  Dg_phi : ℚ → ℚ → ℚ
  Dw_phi : ℚ → ℚ → ℚ
  Epc : ℚ → ℚ
  kappa : ℚ → ℚ
  GetMobility : ℚ → ℚ

/-- Driving force accumulated per cell in BrittleFracture::CrackProblem
(lines 896-906): Theta = atan2 of the gradient components of c_old, then
rhs starts at 0, adds the elastic term Dg_phi(c_old,0)*en_cell, adds the
surface term Epc(Theta)*Dw_phi(c_old,0), subtracts the gradient term
kappa(Theta)*laplacian. laplacian, DcoldX, DcoldY, en_cell are the
stencil-library results for the cell. -/
def crackCellRhs (atan2 : ℚ → ℚ → ℚ) (B : CrackModel)
    (laplacian DcoldX DcoldY en_cell c_old : ℚ) : ℚ :=
  let Theta := atan2 DcoldY DcoldX
  let rhs : ℚ := 0
  let rhs := rhs + B.Dg_phi c_old 0 * en_cell
  let rhs := rhs + B.Epc Theta * B.Dw_phi c_old 0
  let rhs := rhs - B.kappa Theta * laplacian
  rhs

/-- The explicit update written at line 911, before the clamping at lines
913-914: c_new = c_old - dt * max(0, rhs) * GetMobility(c_old). -/
def crackCellUpdateRaw (atan2 : ℚ → ℚ → ℚ) (B : CrackModel)
    (dt laplacian DcoldX DcoldY en_cell c_old : ℚ) : ℚ :=
  c_old - dt * max 0 (crackCellRhs atan2 B laplacian DcoldX DcoldY en_cell c_old)
    * B.GetMobility c_old

/-- The final per-cell damage value: the raw update followed by the two
sequential clamps of lines 913-914 (reset to 1 when above 1, then reset to
0 when below 0); each clamp only logs a Util::Message, it does not abort. -/
def crackCellUpdate (atan2 : ℚ → ℚ → ℚ) (B : CrackModel)
    (dt laplacian DcoldX DcoldY en_cell c_old : ℚ) : ℚ :=
  let c_new := crackCellUpdateRaw atan2 B dt laplacian DcoldX DcoldY en_cell c_old
  let c_new := if 1 < c_new then 1 else c_new
  if c_new < 0 then 0 else c_new

/-- A concrete crack-potential model used to instantiate parametric theorems
at concrete inputs: linear degradation, a symmetric double-well derivative,
direction-independent surface coefficients, unit mobility. -/
def sampleModel : CrackModel :=
  ⟨fun c _ => c, fun c _ => c, fun c _ => c * (1 - c), fun _ => 1, fun _ => 1, fun _ => 1⟩

/-- The two sequential clamps of lines 913-914, written as one nested
conditional: a raw value above 1 becomes 1, a raw value below 0 becomes 0,
anything in between passes through. -/
lemma crackCellUpdate_eq_clamp (atan2 : ℚ → ℚ → ℚ) (B : CrackModel)
    (dt laplacian DcoldX DcoldY en_cell c_old : ℚ) :
    crackCellUpdate atan2 B dt laplacian DcoldX DcoldY en_cell c_old
      = if 1 < crackCellUpdateRaw atan2 B dt laplacian DcoldX DcoldY en_cell c_old then 1
        else if crackCellUpdateRaw atan2 B dt laplacian DcoldX DcoldY en_cell c_old < 0 then 0
        else crackCellUpdateRaw atan2 B dt laplacian DcoldX DcoldY en_cell c_old := by
  by_cases h1 : 1 < crackCellUpdateRaw atan2 B dt laplacian DcoldX DcoldY en_cell c_old
  · norm_num [crackCellUpdate, h1]
  · norm_num [crackCellUpdate, h1]

/-- Claim C1: for every cell the damage update computes
rhs = Dg_phi(c_old)*en_cell + Epc(Theta)*Dw_phi(c_old) - kappa(Theta)*laplacian
with Theta = atan2 of the gradient components of c_old, and sets
c_new = c_old - dt * max(0, rhs) * GetMobility(c_old) before any clamping;
a raw result already inside [0,1] is returned unchanged by the clamps. -/
theorem crackProblem_update_formula (atan2 : ℚ → ℚ → ℚ) (B : CrackModel)
    (dt laplacian DcoldX DcoldY en_cell c_old : ℚ) :
    crackCellRhs atan2 B laplacian DcoldX DcoldY en_cell c_old
      = B.Dg_phi c_old 0 * en_cell
        + B.Epc (atan2 DcoldY DcoldX) * B.Dw_phi c_old 0
        - B.kappa (atan2 DcoldY DcoldX) * laplacian
    ∧ crackCellUpdateRaw atan2 B dt laplacian DcoldX DcoldY en_cell c_old
      = c_old - dt * max 0 (crackCellRhs atan2 B laplacian DcoldX DcoldY en_cell c_old)
          * B.GetMobility c_old
    ∧ (0 ≤ crackCellUpdateRaw atan2 B dt laplacian DcoldX DcoldY en_cell c_old →
        crackCellUpdateRaw atan2 B dt laplacian DcoldX DcoldY en_cell c_old ≤ 1 →
        crackCellUpdate atan2 B dt laplacian DcoldX DcoldY en_cell c_old
          = crackCellUpdateRaw atan2 B dt laplacian DcoldX DcoldY en_cell c_old) := by
  refine ⟨?_, rfl, ?_⟩
  · simp only [crackCellRhs]
    ring
  · intro h0 h1
    rw [crackCellUpdate_eq_clamp, if_neg (not_lt.2 h1), if_neg (not_lt.2 h0)]

/-- Claim C2: every value the damage update writes lies in [0,1]; a raw
result above 1 is clamped to 1 and a raw result below 0 is clamped to 0
(the nearest bound in each case), by a non-fatal correction. -/
theorem crackProblem_clamped_range (atan2 : ℚ → ℚ → ℚ) (B : CrackModel)
    (dt laplacian DcoldX DcoldY en_cell c_old : ℚ) :
    0 ≤ crackCellUpdate atan2 B dt laplacian DcoldX DcoldY en_cell c_old
    ∧ crackCellUpdate atan2 B dt laplacian DcoldX DcoldY en_cell c_old ≤ 1
    ∧ (1 < crackCellUpdateRaw atan2 B dt laplacian DcoldX DcoldY en_cell c_old →
        crackCellUpdate atan2 B dt laplacian DcoldX DcoldY en_cell c_old = 1)
    ∧ (crackCellUpdateRaw atan2 B dt laplacian DcoldX DcoldY en_cell c_old < 0 →
        crackCellUpdate atan2 B dt laplacian DcoldX DcoldY en_cell c_old = 0) := by
  rw [crackCellUpdate_eq_clamp]
  set r := crackCellUpdateRaw atan2 B dt laplacian DcoldX DcoldY en_cell c_old with hr
  refine ⟨?_, ?_, ?_, ?_⟩
  · split_ifs with h1 h2 <;> linarith
  · split_ifs with h1 h2 <;> linarith
  · intro h
    rw [if_pos h]
  · intro h
    rw [if_neg (by linarith), if_pos h]

/-- Claim C3: with dt ≥ 0, GetMobility(c_old) ≥ 0 and 0 ≤ c_old ≤ 1, the
clamped damage update never increases the damage value: the clipped driving
force max(0, rhs) is nonnegative, so the raw update is ≤ c_old, and neither
clamp can raise the value above c_old. -/
theorem crackProblem_nonincreasing (atan2 : ℚ → ℚ → ℚ) (B : CrackModel)
    (dt laplacian DcoldX DcoldY en_cell c_old : ℚ)
    (hdt : 0 ≤ dt) (hmob : 0 ≤ B.GetMobility c_old)
    (hc0 : 0 ≤ c_old) (hc1 : c_old ≤ 1) :
    crackCellUpdate atan2 B dt laplacian DcoldX DcoldY en_cell c_old ≤ c_old := by
  have hraw : crackCellUpdateRaw atan2 B dt laplacian DcoldX DcoldY en_cell c_old ≤ c_old := by
    have h1 : 0 ≤ max 0 (crackCellRhs atan2 B laplacian DcoldX DcoldY en_cell c_old) :=
      le_max_left _ _
    have h2 : 0 ≤ dt * max 0 (crackCellRhs atan2 B laplacian DcoldX DcoldY en_cell c_old)
        * B.GetMobility c_old := mul_nonneg (mul_nonneg hdt h1) hmob
    simp only [crackCellUpdateRaw]
    linarith
  rw [crackCellUpdate_eq_clamp]
  split_ifs with h1 h2 <;> linarith

/-- Witness for C3 at a concrete input: the sample model, dt = 1, a flat
field with pristine energy 5 and c_old = 1/2. -/
theorem crackProblem_nonincreasing_witness :
    crackCellUpdate (fun _ _ => 0) sampleModel 1 0 0 0 5 (1 / 2) ≤ 1 / 2 :=
  crackProblem_nonincreasing (fun _ _ => 0) sampleModel 1 0 0 0 5 (1 / 2)
    (by norm_num) (by norm_num [sampleModel]) (by norm_num) (by norm_num)

/-- Per-node degradation factor computed by BrittleFracture::ScaledModulus
(lines 767-782, the 2-D build, where AMREX_D_PICK selects the weight 0.25):
average g_phi over the 2^2 = 4 cells adjacent to the node (c at (i,j),
(i-1,j), (i,j-1), (i-1,j-1)), clip the average to [0,1] by the two
sequential resets, and pass min(1 - avg, 1 - scaleModulusMax) to
DegradeModulus. This function returns that argument. -/
def scaledModulusFactor (B : CrackModel) (c00 c10 c01 c11 scaleModulusMax : ℚ) : ℚ :=
  let mul : ℚ := 1 / 4
  let t := mul * (B.g_phi c00 0 + B.g_phi c10 0 + B.g_phi c01 0 + B.g_phi c11 0)
  let t := if t < 0 then 0 else t
  let t := if 1 < t then 1 else t
  min (1 - t) (1 - scaleModulusMax)

/-- Counterexample to claim C4 as stated: for the sample model on a fully
intact field (all four cells at c = 1, so g_phi averages to 1) with
scaleModulusMax = 1/2, the computed factor is 0, which is not in the
claimed interval [1 - scaleModulusMax, 1] = [1/2, 1]. -/
theorem scaledModulus_factor_counterexample :
    scaledModulusFactor sampleModel 1 1 1 1 (1 / 2) = 0
    ∧ ¬ (1 - (1 / 2 : ℚ) ≤ scaledModulusFactor sampleModel 1 1 1 1 (1 / 2)) := by
  constructor <;> norm_num [scaledModulusFactor, sampleModel]

/-- Claim C4, amended: for every damage field and every configured
scaleModulusMax in [0,1], the factor min(1 - avg, 1 - scaleModulusMax),
with avg the clipped 4-cell mean of g_phi, lies in [0, 1 - scaleModulusMax]
(1 - scaleModulusMax is an upper bound on the factor, not a lower one). -/
theorem scaledModulus_factor_range (B : CrackModel) (c00 c10 c01 c11 scaleModulusMax : ℚ)
    (h0 : 0 ≤ scaleModulusMax) (h1 : scaleModulusMax ≤ 1) :
    0 ≤ scaledModulusFactor B c00 c10 c01 c11 scaleModulusMax
    ∧ scaledModulusFactor B c00 c10 c01 c11 scaleModulusMax ≤ 1 - scaleModulusMax
    ∧ scaledModulusFactor B c00 c10 c01 c11 scaleModulusMax ≤ 1 := by
  simp only [scaledModulusFactor]
  refine ⟨?_, min_le_right _ _, le_trans (min_le_right _ _) (by linarith)⟩
  refine le_min ?_ (by linarith)
  split_ifs with ha hb hc <;> linarith

/-- Witness for the amended C4 at a concrete input: sample model, all four
cells fully broken (c = 0), scaleModulusMax = 1/2. -/
theorem scaledModulus_factor_range_witness :
    0 ≤ scaledModulusFactor sampleModel 0 0 0 0 (1 / 2)
    ∧ scaledModulusFactor sampleModel 0 0 0 0 (1 / 2) ≤ 1 - 1 / 2
    ∧ scaledModulusFactor sampleModel 0 0 0 0 (1 / 2) ≤ 1 :=
  scaledModulus_factor_range sampleModel 0 0 0 0 (1 / 2) (by norm_num) (by norm_num)

/-- Result of the constructor's load-ramp sanitization (lines 658-666):
disp_step is read into elastic.test_rate and max_disp into
elastic.test_max, then each is checked and possibly replaced. The two
Util::Warning calls are recorded as Booleans; the rate warning's text
announces a reset to 1.0 while the assigned value is 0.1. Neither branch
aborts. -/
structure SanitizedLoad where
  test_rate : ℚ
  test_max : ℚ
  warnedRate : Bool
  warnedMax : Bool

/-- Lines 665-666: if test_rate < 0 warn and set it to 0.1; then if
test_max < 0 or test_max < test_rate (the already-sanitized rate) warn and
set test_max to test_rate. -/
def sanitizeLoadRamp (disp_step max_disp : ℚ) : SanitizedLoad :=
  let p := if disp_step < 0 then ((1 / 10 : ℚ), true) else (disp_step, false)
  let q := if max_disp < 0 ∨ max_disp < p.1 then (p.1, true) else (max_disp, false)
  ⟨p.1, q.1, p.2, q.2⟩

/-- Claim C9: construction sanitizes the load ramp so that afterwards
test_rate ≥ 0 and test_max ≥ test_rate always hold; a negative disp_step
is replaced by 0.1 (not the 1.0 its warning text announces) with a
warning, a max_disp that is negative or below the sanitized rate is
replaced by that rate with a warning, and in-range inputs pass through
unwarned; both paths return normally (no abort). -/
theorem sanitizeLoadRamp_post (disp_step max_disp : ℚ) :
    0 ≤ (sanitizeLoadRamp disp_step max_disp).test_rate
    ∧ (sanitizeLoadRamp disp_step max_disp).test_rate
        ≤ (sanitizeLoadRamp disp_step max_disp).test_max
    ∧ (disp_step < 0 →
        (sanitizeLoadRamp disp_step max_disp).test_rate = 1 / 10
        ∧ (sanitizeLoadRamp disp_step max_disp).warnedRate = true)
    ∧ (0 ≤ disp_step →
        (sanitizeLoadRamp disp_step max_disp).test_rate = disp_step
        ∧ (sanitizeLoadRamp disp_step max_disp).warnedRate = false)
    ∧ (max_disp < 0 ∨ max_disp < (sanitizeLoadRamp disp_step max_disp).test_rate →
        (sanitizeLoadRamp disp_step max_disp).test_max
          = (sanitizeLoadRamp disp_step max_disp).test_rate
        ∧ (sanitizeLoadRamp disp_step max_disp).warnedMax = true) := by
  simp only [sanitizeLoadRamp]
  split_ifs with h1 h2 h3 <;> simp_all

/-- The bottom-solver setting of the external multigrid solver: either one
of the two explicitly selectable methods or whatever the solver defaults
to when setBottomSolver is never called. -/
inductive BottomSolverChoice where
  | defaultSolver
  | cg
  | bicgstab
deriving DecidableEq

/-- Lines 1000-1001 of BrittleFracture::ElasticityProblem: setBottomSolver
is invoked only when elastic.bottom_solver is exactly "cg" or "bicgstab";
there is no else branch, no warning and no abort, so any other string
leaves the solver's current (default) bottom solver in place. -/
def selectBottomSolver (bottom_solver : String) (current : BottomSolverChoice) :
    BottomSolverChoice :=
  if bottom_solver = "cg" then BottomSolverChoice.cg
  else if bottom_solver = "bicgstab" then BottomSolverChoice.bicgstab
  else current

/-- Claim C10: a bottom_solver string other than "cg" and "bicgstab" is
silently ignored: the configured choice stays whatever it already was, and
the translated code path contains no abort or warning. -/
theorem selectBottomSolver_unrecognized (s : String) (current : BottomSolverChoice)
    (h1 : s ≠ "cg") (h2 : s ≠ "bicgstab") :
    selectBottomSolver s current = current := by
  simp [selectBottomSolver, h1, h2]

/-- Witness for C10 at a concrete input: the string "smoother" leaves the
default bottom solver untouched. -/
theorem selectBottomSolver_unrecognized_witness :
    selectBottomSolver "smoother" BottomSolverChoice.defaultSolver
      = BottomSolverChoice.defaultSolver :=
  selectBottomSolver_unrecognized "smoother" BottomSolverChoice.defaultSolver
    (by decide) (by decide)

/-- Configuration read at construction: elastic.bc.disp_init,
elastic.bc.disp_step, elastic.bc.max_disp (stored as test_init, test_rate,
test_max), crack.tol_crack, and the crackStressTest flag. -/
structure LoadCfg where
  test_init : ℚ
  test_rate : ℚ
  test_max : ℚ
  tol_crack : ℚ
  crackStressTest : Bool
deriving DecidableEq

/-- Mutable loading state of the controller: the load-step counter
elastic.test_step (a C++ int that is only ever incremented, modelled as
ℕ), the applied ramp elastic.bc_top[1], the two integrated norms, the
newCrackProblem flag, and a stopped flag modelling the effect of
SetStopTime(time - 0.01) (the time-stepping driver runs no further step
once the stop time lies in the past). -/
structure LoadState where
  test_step : ℕ
  bc_top1 : ℚ
  crack_err_norm : ℚ
  c_new_norm : ℚ
  newCrackProblem : Bool
  stopped : Bool
deriving DecidableEq

/-- Modelled from the spec: the loading state right after construction.
The constructor visible in the source zeroes the norm accumulator (line
577) and the bc_top vector (lines 699-706, overwriting the test_init
written at line 663); the header defaults of test_step and
newCrackProblem are not under src, and spec 4.8 says the first cycle
enters a new load increment with ramp test_init + step * rate, so
test_step starts at 0 with newCrackProblem set. -/
def initLoadState : LoadState :=
  ⟨0, 0, 0, 0, true, false⟩

/-- BrittleFracture::TimeStepBegin (lines 803-822): in stress-test mode the
ramp is refreshed and elasticity solved every step; otherwise the ramp is
set to test_init + test_step * test_rate only when newCrackProblem is
set, which is then cleared. The ElasticityProblem call itself is the
external solve and does not touch this state. -/
def TimeStepBegin (cfg : LoadCfg) (s : LoadState) : LoadState :=
  if cfg.crackStressTest then
    { s with bc_top1 := cfg.test_init + (s.test_step : ℚ) * cfg.test_rate }
  else if s.newCrackProblem then
    { s with bc_top1 := cfg.test_init + (s.test_step : ℚ) * cfg.test_rate,
             newCrackProblem := false }
  else s

/-- BrittleFracture::TimeStepComplete (lines 832-872): in stress-test mode
it writes a plot file and stops. Otherwise IntegrateVariables deposits the
step's reduction results errN and cN into the two accumulators; if
crack_err_norm / c_new_norm > tol_crack the function returns at line 854
leaving everything else untouched; on convergence it zeroes both norms,
sets newCrackProblem, increments test_step, stops once the just-applied
ramp bc_top1 has reached test_max, and zeroes the norms once more (line
871). Division follows the exact-arithmetic convention here; the IEEE
behaviour of the quotient at c_new_norm = 0 is settled separately against
the FP model below. -/
def TimeStepComplete (cfg : LoadCfg) (errN cN : ℚ) (s : LoadState) : LoadState :=
  if cfg.crackStressTest then
    { s with stopped := true }
  else
    let s := { s with crack_err_norm := errN, c_new_norm := cN }
    if cfg.tol_crack < s.crack_err_norm / s.c_new_norm then s
    else
      let s := { s with crack_err_norm := 0, c_new_norm := 0 }
      let s := { s with newCrackProblem := true, test_step := s.test_step + 1 }
      let s := if cfg.test_max ≤ s.bc_top1 then { s with stopped := true } else s
      { s with crack_err_norm := 0, c_new_norm := 0 }

/-- One pseudo-time step of the driver loop around the integrator:
TimeStepBegin (which performs the elasticity solve), the per-cell Advance
(which does not touch the loading state), then TimeStepComplete with the
norms integrated in this step. -/
def driverStep (cfg : LoadCfg) (errN cN : ℚ) (s : LoadState) : LoadState :=
  TimeStepComplete cfg errN cN (TimeStepBegin cfg s)

/-- The ramp values applied at successive elasticity solves of a run: each
entry of `inputs` supplies the norms one pseudo-time step integrates, and
the run performs no further step once stopped. Returns the applied ramps
in order together with the final state. -/
def runRamps (cfg : LoadCfg) : List (ℚ × ℚ) → LoadState → List ℚ × LoadState
  | [], s => ([], s)
  | (e, c) :: rest, s =>
    if s.stopped then ([], s)
    else
      let s1 := TimeStepBegin cfg s
      let out := runRamps cfg rest (TimeStepComplete cfg e c s1)
      (s1.bc_top1 :: out.1, out.2)

/-- Claim C5: at step completion with crackStressTest off and mid-increment
state (newCrackProblem already consumed), if the integrated relative error
crack_err_norm / c_new_norm is at most tol_crack then the controller
advances the load step: both norms are reset to zero, the step counter is
incremented, and the ramp the next TimeStepBegin applies is
test_init + (step+1) * test_rate, exactly test_rate = disp_step above the
current ramp whenever the current ramp is test_init + step * test_rate;
if the quotient exceeds tol_crack, the ramp, step counter and (integrated)
norms are left as they are and the next TimeStepBegin applies the same
ramp again. -/
theorem timeStepComplete_advance (cfg : LoadCfg) (errN cN : ℚ) (s : LoadState)
    (hstress : cfg.crackStressTest = false)
    (hncp : s.newCrackProblem = false) :
    (errN / cN ≤ cfg.tol_crack →
      (TimeStepComplete cfg errN cN s).crack_err_norm = 0
      ∧ (TimeStepComplete cfg errN cN s).c_new_norm = 0
      ∧ (TimeStepComplete cfg errN cN s).test_step = s.test_step + 1
      ∧ (TimeStepBegin cfg (TimeStepComplete cfg errN cN s)).bc_top1
          = cfg.test_init + ((s.test_step : ℚ) + 1) * cfg.test_rate
      ∧ (s.bc_top1 = cfg.test_init + (s.test_step : ℚ) * cfg.test_rate →
          (TimeStepBegin cfg (TimeStepComplete cfg errN cN s)).bc_top1
            = s.bc_top1 + cfg.test_rate))
    ∧ (cfg.tol_crack < errN / cN →
      (TimeStepComplete cfg errN cN s).test_step = s.test_step
      ∧ (TimeStepComplete cfg errN cN s).bc_top1 = s.bc_top1
      ∧ (TimeStepComplete cfg errN cN s).crack_err_norm = errN
      ∧ (TimeStepComplete cfg errN cN s).c_new_norm = cN
      ∧ (TimeStepBegin cfg (TimeStepComplete cfg errN cN s)).bc_top1 = s.bc_top1) := by
  constructor
  · intro hconv
    have hrep : ¬ cfg.tol_crack < errN / cN := not_lt.2 hconv
    simp only [TimeStepComplete, hstress, if_neg hrep, Bool.false_eq_true, if_false]
    split_ifs with hmax <;>
      refine ⟨?_, ?_, ?_, ?_, fun h => ?_⟩ <;>
      simp [TimeStepBegin, hstress, *] <;>
      ring
  · intro hrep
    simp only [TimeStepComplete, TimeStepBegin, hstress, if_pos hrep, Bool.false_eq_true,
      if_false, hncp]
    simp [hncp]

/-- Concrete configuration for witnesses: disp_init 0, disp_step 1/10,
max_disp 1, tol_crack 1/1000000, stress-test mode off; it satisfies the
constructor's sanitized invariants (rate ≥ 0, max ≥ rate). -/
def cfgD : LoadCfg :=
  ⟨0, 1 / 10, 1, 1 / 1000000, false⟩

/-- Concrete mid-increment state for the C5 witness: load step 3, ramp
3/10 = test_init + 3 * test_rate, norms integrated this step,
newCrackProblem already consumed by the increment's first TimeStepBegin. -/
def stD : LoadState :=
  ⟨3, 3 / 10, 0, 0, false, false⟩

/-- Witness for C5 at a concrete input (the spec's Scenario D):
crack_err_norm = 0, c_new_norm = 1, tol_crack = 1/1000000; the ramp
applied at the next elasticity solve is exactly disp_step larger. -/
theorem timeStepComplete_advance_witness :
    (TimeStepBegin cfgD (TimeStepComplete cfgD 0 1 stD)).bc_top1
      = stD.bc_top1 + cfgD.test_rate :=
  ((timeStepComplete_advance cfgD 0 1 stD rfl rfl).1
    (by norm_num [cfgD])).2.2.2.2 (by norm_num [cfgD, stD])

/-- Invariant tying the ramp to the step counter: outside a fresh load
increment the ramp equals test_init + test_step * test_rate, and while the
run has not stopped the next increment's ramp is at most
test_max + test_rate (the just-completed increment would otherwise have
fired the stop). -/
def RampInv (cfg : LoadCfg) (s : LoadState) : Prop :=
  (s.newCrackProblem = false →
    s.bc_top1 = cfg.test_init + (s.test_step : ℚ) * cfg.test_rate)
  ∧ (s.stopped = false →
    cfg.test_init + (s.test_step : ℚ) * cfg.test_rate ≤ cfg.test_max + cfg.test_rate)

/-- The initial state satisfies the ramp invariant whenever the configured
start of the ramp does not already exceed the configured maximum. -/
lemma rampInv_init (cfg : LoadCfg) (h1 : cfg.test_init ≤ cfg.test_max)
    (hr : 0 ≤ cfg.test_rate) : RampInv cfg initLoadState := by
  constructor
  · intro h
    simp [initLoadState] at h
  · intro _
    simp only [initLoadState, Nat.cast_zero]
    linarith

/-- TimeStepBegin leaves the step counter unchanged. -/
lemma timeStepBegin_step (cfg : LoadCfg) (s : LoadState) :
    (TimeStepBegin cfg s).test_step = s.test_step := by
  simp only [TimeStepBegin]
  split_ifs <;> rfl

/-- TimeStepBegin leaves the stop flag unchanged. -/
lemma timeStepBegin_stopped (cfg : LoadCfg) (s : LoadState) :
    (TimeStepBegin cfg s).stopped = s.stopped := by
  simp only [TimeStepBegin]
  split_ifs <;> rfl

/-- Outside stress-test mode, the ramp TimeStepBegin applies is
test_init + test_step * test_rate whenever the pre-state satisfies the
first half of the ramp invariant. -/
lemma timeStepBegin_bc (cfg : LoadCfg) (s : LoadState)
    (hstress : cfg.crackStressTest = false)
    (hinv : s.newCrackProblem = false →
      s.bc_top1 = cfg.test_init + (s.test_step : ℚ) * cfg.test_rate) :
    (TimeStepBegin cfg s).bc_top1
      = cfg.test_init + (s.test_step : ℚ) * cfg.test_rate := by
  simp only [TimeStepBegin, hstress, Bool.false_eq_true, if_false]
  cases hcp : s.newCrackProblem
  · simp [hcp, hinv hcp]
  · simp [hcp]

/-- One driver step preserves the ramp invariant and moves the step counter
by zero (unconverged) or one (converged). -/
lemma driverStep_inv (cfg : LoadCfg) (e c : ℚ) (s : LoadState)
    (hstress : cfg.crackStressTest = false)
    (hinv : RampInv cfg s) :
    RampInv cfg (driverStep cfg e c s)
    ∧ s.test_step ≤ (driverStep cfg e c s).test_step
    ∧ (driverStep cfg e c s).test_step ≤ s.test_step + 1
    ∧ ((driverStep cfg e c s).stopped = false → s.stopped = false) := by
  have hbc := timeStepBegin_bc cfg s hstress hinv.1
  have hstep := timeStepBegin_step cfg s
  have hstop := timeStepBegin_stopped cfg s
  simp only [driverStep, TimeStepComplete, hstress, Bool.false_eq_true, if_false]
  split_ifs with hrep hmax
  · refine ⟨⟨?_, ?_⟩, ?_, ?_, ?_⟩
    · intro _
      rw [hbc, hstep]
    · intro h
      rw [hstep]
      exact hinv.2 (by rw [← hstop]; exact h)
    · simp [hstep]
    · simp [hstep]
    · intro h
      rw [← hstop]
      exact h
  · refine ⟨⟨?_, ?_⟩, ?_, ?_, ?_⟩
    · intro h
      simp at h
    · intro h
      simp at h
    · simp [hstep]
    · simp [hstep]
    · intro h
      simp at h
  · refine ⟨⟨?_, ?_⟩, ?_, ?_, ?_⟩
    · intro h
      simp at h
    · intro h
      have hlt : (TimeStepBegin cfg s).bc_top1 < cfg.test_max := not_le.1 hmax
      rw [hbc] at hlt
      rw [hstep]
      push_cast
      linarith
    · simp [hstep]
    · simp [hstep]
    · intro h
      rw [← hstop]
      exact h

/-- Auxiliary induction for the run: from any state satisfying the ramp
invariant, the applied ramps are chained non-decreasingly, and every one
of them lies between the current increment's ramp and
test_max + test_rate. -/
lemma runRamps_aux (cfg : LoadCfg) (hstress : cfg.crackStressTest = false)
    (hrate : 0 ≤ cfg.test_rate) :
    ∀ (inputs : List (ℚ × ℚ)) (s : LoadState), RampInv cfg s →
      List.Chain' (· ≤ ·) (runRamps cfg inputs s).1
      ∧ (∀ r ∈ (runRamps cfg inputs s).1,
          cfg.test_init + (s.test_step : ℚ) * cfg.test_rate ≤ r
          ∧ r ≤ cfg.test_max + cfg.test_rate) := by
  intro inputs
  induction inputs with
  | nil =>
    intro s _
    simp [runRamps]
  | cons p rest ih =>
    intro s hinv
    obtain ⟨e, c⟩ := p
    by_cases hstop : s.stopped
    · simp [runRamps, hstop]
    · have hbc := timeStepBegin_bc cfg s hstress hinv.1
      have hdi := driverStep_inv cfg e c s hstress hinv
      have hih := ih (driverStep cfg e c s) hdi.1
      have hmono : cfg.test_init + (s.test_step : ℚ) * cfg.test_rate
          ≤ cfg.test_init + ((driverStep cfg e c s).test_step : ℚ) * cfg.test_rate := by
        have : (s.test_step : ℚ) ≤ ((driverStep cfg e c s).test_step : ℚ) :=
          Nat.cast_le.2 hdi.2.1
        nlinarith
      have hlist : (runRamps cfg ((e, c) :: rest) s).1
          = (TimeStepBegin cfg s).bc_top1 :: (runRamps cfg rest (driverStep cfg e c s)).1 := by
        simp [runRamps, hstop, driverStep]
      constructor
      · rw [hlist]
        refine List.chain'_cons'.2 ⟨?_, hih.1⟩
        intro b hb
        have hbmem : b ∈ (runRamps cfg rest (driverStep cfg e c s)).1 :=
          List.mem_of_mem_head? hb
        have := (hih.2 b hbmem).1
        rw [hbc]
        linarith
      · rw [hlist]
        intro r hr
        rcases List.mem_cons.1 hr with h | h
        · subst h
          rw [hbc]
          exact ⟨le_refl _, hinv.2 (by simpa using hstop)⟩
        · have := hih.2 r h
          exact ⟨le_trans hmono this.1, this.2⟩

/-- The stop decision of one driver step: outside stress-test mode the stop
flag is set exactly when it was already set or this step converged with
its applied ramp at or beyond test_max. -/
lemma driverStep_stopped_iff (cfg : LoadCfg) (e c : ℚ) (t : LoadState)
    (hstress : cfg.crackStressTest = false) :
    (driverStep cfg e c t).stopped = true ↔
      (t.stopped = true
        ∨ (e / c ≤ cfg.tol_crack ∧ cfg.test_max ≤ (TimeStepBegin cfg t).bc_top1)) := by
  have hstop := timeStepBegin_stopped cfg t
  simp only [driverStep, TimeStepComplete, hstress, Bool.false_eq_true, if_false]
  split_ifs with hrep hmax
  · simp only [hstop]
    constructor
    · intro h
      exact Or.inl h
    · intro h
      rcases h with h | h
      · exact h
      · exact absurd h.1 (not_le.2 hrep)
  · constructor
    · intro _
      exact Or.inr ⟨not_lt.1 hrep, hmax⟩
    · intro _
      simp
  · simp only [hstop]
    constructor
    · intro h
      exact Or.inl h
    · intro h
      rcases h with h | h
      · exact h
      · exact absurd h.2 hmax

/-- Once stopped, a run applies no further load. -/
lemma runRamps_stopped (cfg : LoadCfg) (inputs : List (ℚ × ℚ)) (s : LoadState)
    (h : s.stopped = true) : (runRamps cfg inputs s).1 = [] := by
  cases inputs with
  | nil => rfl
  | cons p rest =>
    obtain ⟨e, c⟩ := p
    simp [runRamps, h]

/-- Claim C6, amended: with stress-test mode off, test_rate = disp_step ≥ 0
and a start state satisfying the ramp invariant, the applied ramp values
of a run are non-decreasing; every applied ramp is at most
test_max + test_rate (it can exceed max_disp, by up to disp_step, in the
final increment, so "never exceeds max_disp" does not hold as claimed);
the stop fires exactly at the completion of a converged step whose applied
ramp reached or exceeded test_max; and once stopped no further load is
applied. -/
theorem runRamps_load_ramp (cfg : LoadCfg) (inputs : List (ℚ × ℚ)) (s : LoadState)
    (hstress : cfg.crackStressTest = false) (hrate : 0 ≤ cfg.test_rate)
    (hinv : RampInv cfg s) :
    List.Chain' (· ≤ ·) (runRamps cfg inputs s).1
    ∧ (∀ r ∈ (runRamps cfg inputs s).1, r ≤ cfg.test_max + cfg.test_rate)
    ∧ (∀ (e c : ℚ) (t : LoadState), (driverStep cfg e c t).stopped = true ↔
        (t.stopped = true
          ∨ (e / c ≤ cfg.tol_crack ∧ cfg.test_max ≤ (TimeStepBegin cfg t).bc_top1)))
    ∧ (s.stopped = true → (runRamps cfg inputs s).1 = []) := by
  have haux := runRamps_aux cfg hstress hrate inputs s hinv
  exact ⟨haux.1, fun r hr => (haux.2 r hr).2,
    fun e c t => driverStep_stopped_iff cfg e c t hstress,
    runRamps_stopped cfg inputs s⟩

/-- Counterexample to claim C6 as stated: with disp_init 0, disp_step 3,
max_disp 5 (a configuration the constructor's sanitization accepts
unchanged) and three converging pseudo-time steps, the applied ramps are
0, 3, 6: the third applied ramp 6 exceeds max_disp = 5, because the stop
is only checked after the over-the-maximum load has already been applied. -/
theorem runRamps_exceeds_max_counterexample :
    (runRamps ⟨0, 3, 5, 1, false⟩ [(0, 1), (0, 1), (0, 1)] initLoadState).1 = [0, 3, 6]
    ∧ ¬ ((6 : ℚ) ≤ 5) := by
  constructor
  · norm_num [runRamps, TimeStepBegin, TimeStepComplete, initLoadState]
  · norm_num

/-- Witness for the amended C6 at a concrete input: the witness
configuration and the initial state, with three converging steps. -/
theorem runRamps_load_ramp_witness :
    List.Chain' (· ≤ ·) (runRamps cfgD [(0, 1), (0, 1), (0, 1)] initLoadState).1
    ∧ (∀ r ∈ (runRamps cfgD [(0, 1), (0, 1), (0, 1)] initLoadState).1,
        r ≤ cfgD.test_max + cfgD.test_rate)
    ∧ (∀ (e c : ℚ) (t : LoadState), (driverStep cfgD e c t).stopped = true ↔
        (t.stopped = true
          ∨ (e / c ≤ cfgD.tol_crack ∧ cfgD.test_max ≤ (TimeStepBegin cfgD t).bc_top1)))
    ∧ (initLoadState.stopped = true →
        (runRamps cfgD [(0, 1), (0, 1), (0, 1)] initLoadState).1 = []) :=
  runRamps_load_ramp cfgD [(0, 1), (0, 1), (0, 1)] initLoadState rfl
    (by norm_num [cfgD])
    (rampInv_init cfgD (by norm_num [cfgD]) (by norm_num [cfgD]))

/-- Model of an IEEE double restricted to what the claims about special
values exercise: NaN, the two infinities, and exact finite values
(rounding is not modelled; signed zero is identified with +0, so the sign
rules below treat a zero operand as positive, which matches the sums of
squares and nonnegative tolerances the source feeds these operations). -/
inductive FP where
  | nan : FP
  | pinf : FP
  | ninf : FP
  | fin : ℚ → FP
deriving DecidableEq

/-- std::isnan: true exactly for NaN; in particular false for infinities. -/
def FP.isnan : FP → Bool
  | .nan => true
  | _ => false

/-- A value is finite when it is neither NaN nor an infinity. -/
def FP.isFinite : FP → Bool
  | .fin _ => true
  | _ => false

/-- IEEE negation. -/
def FP.neg : FP → FP
  | .nan => .nan
  | .pinf => .ninf
  | .ninf => .pinf
  | .fin x => .fin (-x)

/-- IEEE addition: NaN propagates, opposite infinities give NaN. -/
def FP.add : FP → FP → FP
  | .nan, _ => .nan
  | _, .nan => .nan
  | .pinf, .ninf => .nan
  | .ninf, .pinf => .nan
  | .pinf, _ => .pinf
  | _, .pinf => .pinf
  | .ninf, _ => .ninf
  | _, .ninf => .ninf
  | .fin x, .fin y => .fin (x + y)

/-- IEEE subtraction as addition of the negation. -/
def FP.sub (a b : FP) : FP := a.add b.neg

/-- IEEE multiplication: NaN propagates, infinity times zero gives NaN,
infinity times a nonzero finite value gives a signed infinity. -/
def FP.mul : FP → FP → FP
  | .nan, _ => .nan
  | _, .nan => .nan
  | .pinf, .pinf => .pinf
  | .pinf, .ninf => .ninf
  | .ninf, .pinf => .ninf
  | .ninf, .ninf => .pinf
  | .pinf, .fin y => if y = 0 then .nan else if 0 < y then .pinf else .ninf
  | .fin x, .pinf => if x = 0 then .nan else if 0 < x then .pinf else .ninf
  | .ninf, .fin y => if y = 0 then .nan else if 0 < y then .ninf else .pinf
  | .fin x, .ninf => if x = 0 then .nan else if 0 < x then .ninf else .pinf
  | .fin x, .fin y => .fin (x * y)

/-- IEEE division: NaN propagates, 0/0 and infinity/infinity give NaN, a
nonzero finite value over zero gives a signed infinity, a finite value
over an infinity gives zero. -/
def FP.div : FP → FP → FP
  | .nan, _ => .nan
  | _, .nan => .nan
  | .pinf, .pinf => .nan
  | .pinf, .ninf => .nan
  | .ninf, .pinf => .nan
  | .ninf, .ninf => .nan
  | .pinf, .fin y => if 0 ≤ y then .pinf else .ninf
  | .ninf, .fin y => if 0 ≤ y then .ninf else .pinf
  | .fin _, .pinf => .fin 0
  | .fin _, .ninf => .fin 0
  | .fin x, .fin y =>
    if y = 0 then (if x = 0 then .nan else if 0 < x then .pinf else .ninf)
    else .fin (x / y)

/-- IEEE ordered less-than: any comparison involving NaN is false. -/
def FP.lt : FP → FP → Bool
  | .nan, _ => false
  | _, .nan => false
  | .ninf, .ninf => false
  | .ninf, _ => true
  | _, .ninf => false
  | .pinf, _ => false
  | .fin _, .pinf => true
  | .fin x, .fin y => decide (x < y)

/-- std::max(a, b) as the standard library defines it: b if a < b, else a. -/
def FP.max (a b : FP) : FP := if a.lt b then b else a

/-- The crack-potential interface over IEEE values, for the claims about
special-value behaviour of the per-cell kernel. -/
structure CrackModelFP where
  g_phi : FP → FP → FP
  Dg_phi : FP → FP → FP
  Dw_phi : FP → FP → FP
  Epc : FP → FP
  kappa : FP → FP
  GetMobility : FP → FP

/-- Payload of the Util::Abort at line 910: the offending potential
derivative Dw_phi(c_old, 0) and the damage value c_old. -/
structure CrackAbort where
  Dwphi : FP
  c_old : FP
deriving DecidableEq

/-- The per-cell driving force of CrackProblem (lines 896-906) evaluated in
IEEE arithmetic. -/
def crackCellRhsFP (atan2 : FP → FP → FP) (B : CrackModelFP)
    (laplacian DcoldX DcoldY en_cell c_old : FP) : FP :=
  let Theta := atan2 DcoldY DcoldX
  let rhs := FP.fin 0
  let rhs := rhs.add ((B.Dg_phi c_old (FP.fin 0)).mul en_cell)
  let rhs := rhs.add ((B.Epc Theta).mul (B.Dw_phi c_old (FP.fin 0)))
  let rhs := rhs.sub ((B.kappa Theta).mul laplacian)
  rhs

/-- The per-cell kernel of CrackProblem (lines 890-915) in IEEE arithmetic,
including the error path: line 910 checks std::isnan(rhs) and aborts with
the Dw_phi value and c_old; otherwise line 911 writes the explicit update
and lines 913-914 clamp it, each comparison following IEEE semantics. -/
def crackCellStepFP (atan2 : FP → FP → FP) (B : CrackModelFP)
    (dt laplacian DcoldX DcoldY en_cell c_old : FP) : Except CrackAbort FP :=
  let rhs := crackCellRhsFP atan2 B laplacian DcoldX DcoldY en_cell c_old
  if rhs.isnan then Except.error ⟨B.Dw_phi c_old (FP.fin 0), c_old⟩
  else
    let c_new := c_old.sub ((dt.mul (FP.max (FP.fin 0) rhs)).mul (B.GetMobility c_old))
    let c_new := if (FP.fin 1).lt c_new then FP.fin 1 else c_new
    let c_new := if c_new.lt (FP.fin 0) then FP.fin 0 else c_new
    Except.ok c_new

/-- A crack-potential model whose elastic coupling passes the pristine
energy through unscaled while the surface and gradient terms vanish, used
to drive the kernel with an infinite energy input. -/
def pinfModel : CrackModelFP :=
  ⟨fun _ _ => .fin 1, fun _ _ => .fin 1, fun _ _ => .fin 0,
   fun _ => .fin 0, fun _ => .fin 0, fun _ => .fin 1⟩

/-- Counterexample to claim C7 as stated: with an infinite cell energy the
driving force rhs is +infinity, hence non-finite, yet std::isnan is false
on it, so the kernel does not abort: it runs the update (which collapses
to -infinity and is clamped to 0) and returns normally. -/
theorem crackCell_inf_no_abort_counterexample :
    (crackCellRhsFP (fun _ _ => FP.fin 0) pinfModel (FP.fin 0) (FP.fin 0) (FP.fin 0)
        FP.pinf (FP.fin 1)).isFinite = false
    ∧ (crackCellRhsFP (fun _ _ => FP.fin 0) pinfModel (FP.fin 0) (FP.fin 0) (FP.fin 0)
        FP.pinf (FP.fin 1)).isnan = false
    ∧ crackCellStepFP (fun _ _ => FP.fin 0) pinfModel (FP.fin 1) (FP.fin 0) (FP.fin 0)
        (FP.fin 0) FP.pinf (FP.fin 1) = Except.ok (FP.fin 0) := by
  refine ⟨?_, ?_, ?_⟩ <;>
    norm_num [crackCellStepFP, crackCellRhsFP, pinfModel, FP.add, FP.mul, FP.sub,
      FP.neg, FP.isnan, FP.isFinite, FP.max, FP.lt]

/-- Claim C7, amended: the damage kernel aborts exactly when the driving
force rhs is NaN, and then reports Dw_phi(c_old) and c_old; a non-finite
but non-NaN rhs (an infinity) passes the std::isnan check and the update
proceeds normally. -/
theorem crackCell_abort_only_on_nan (atan2 : FP → FP → FP) (B : CrackModelFP)
    (dt laplacian DcoldX DcoldY en_cell c_old : FP) :
    ((crackCellRhsFP atan2 B laplacian DcoldX DcoldY en_cell c_old).isnan = true →
      crackCellStepFP atan2 B dt laplacian DcoldX DcoldY en_cell c_old
        = Except.error ⟨B.Dw_phi c_old (FP.fin 0), c_old⟩)
    ∧ ((crackCellRhsFP atan2 B laplacian DcoldX DcoldY en_cell c_old).isnan = false →
      ∃ v, crackCellStepFP atan2 B dt laplacian DcoldX DcoldY en_cell c_old
        = Except.ok v) := by
  constructor
  · intro h
    simp [crackCellStepFP, h]
  · intro h
    simp [crackCellStepFP, h]

/-- BrittleFracture::Integrate (lines 1086-1102): per cell, add
(c_new - c_old)^2 * volume into crack_err_norm and c_new^2 * volume into
c_new_norm; cells are given as (c_new, c_old) pairs with the cell volume
DX[0]*DX[1]. -/
def integrateNorms : List (ℚ × ℚ) → ℚ → ℚ → ℚ → ℚ × ℚ
  | [], _, crack_err_norm, c_new_norm => (crack_err_norm, c_new_norm)
  | (cn, co) :: rest, vol, crack_err_norm, c_new_norm =>
    integrateNorms rest vol (crack_err_norm + (cn - co) * (cn - co) * vol)
      (c_new_norm + cn * cn * vol)

/-- The convergence branch of TimeStepComplete at line 854, under IEEE
semantics: true means crack_err_norm / c_new_norm > tol_crack holds and
the function returns early, repeating the load; false means the branch is
not taken and the controller advances the load step. There is no guard on
the denominator and no error path: the comparison is a total Boolean. -/
def convergenceRepeats (crack_err_norm c_new_norm tol_crack : FP) : Bool :=
  FP.lt tol_crack (FP.div crack_err_norm c_new_norm)

/-- The accumulated c_new_norm stays at its initial value when every c_new
in the integrated cells is zero. -/
lemma integrateNorms_zero_cnew (vol : ℚ) :
    ∀ (cells : List (ℚ × ℚ)) (a b : ℚ), (∀ p ∈ cells, p.1 = 0) →
      (integrateNorms cells vol a b).2 = b := by
  intro cells
  induction cells with
  | nil =>
    intro a b _
    rfl
  | cons p rest ih =>
    intro a b hall
    obtain ⟨cn, co⟩ := p
    have hcn : cn = 0 := hall (cn, co) (List.mem_cons_self _ _)
    have hrest : ∀ p ∈ rest, p.1 = 0 := fun q hq => hall q (List.mem_cons_of_mem _ hq)
    simp only [integrateNorms]
    rw [ih _ _ hrest, hcn]
    ring

/-- Claim C8, amended: the line-854 test divides crack_err_norm by
c_new_norm with no guard. With c_new_norm = 0 (as produced by an
identically zero damage field) the quotient is never finite: it is NaN
when crack_err_norm is also 0 (previous field also zero), in which case
the NaN comparison is false and the controller silently advances the load
step; it is +infinity when crack_err_norm > 0 (previous field nonzero),
in which case the comparison is true and the step repeats. No error is
raised in either case. -/
theorem convergence_zero_norm (e tol : ℚ) (he : 0 ≤ e) :
    (FP.div (FP.fin e) (FP.fin 0) = FP.nan ∨ FP.div (FP.fin e) (FP.fin 0) = FP.pinf)
    ∧ (e = 0 → FP.div (FP.fin e) (FP.fin 0) = FP.nan
        ∧ convergenceRepeats (FP.fin e) (FP.fin 0) (FP.fin tol) = false)
    ∧ (0 < e → FP.div (FP.fin e) (FP.fin 0) = FP.pinf
        ∧ convergenceRepeats (FP.fin e) (FP.fin 0) (FP.fin tol) = true)
    ∧ (∀ (cells : List (ℚ × ℚ)) (vol : ℚ), (∀ p ∈ cells, p.1 = 0) →
        (integrateNorms cells vol 0 0).2 = 0) := by
  refine ⟨?_, ?_, ?_, fun cells vol h => integrateNorms_zero_cnew vol cells 0 0 h⟩
  · rcases eq_or_lt_of_le he with h | h
    · exact Or.inl (by simp [FP.div, ← h])
    · exact Or.inr (by simp [FP.div, h.ne.symm, h])
  · intro h
    subst h
    constructor
    · simp [FP.div]
    · simp [convergenceRepeats, FP.div, FP.lt]
  · intro h
    constructor
    · simp [FP.div, h.ne.symm, h]
    · simp [convergenceRepeats, FP.div, FP.lt, h.ne.symm, h]

/-- Witness for the amended C8 at a concrete input: crack_err_norm 0,
c_new_norm 0, tol_crack 1/1000000. -/
theorem convergence_zero_norm_witness :
    (FP.div (FP.fin 0) (FP.fin 0) = FP.nan ∨ FP.div (FP.fin 0) (FP.fin 0) = FP.pinf)
    ∧ ((0 : ℚ) = 0 → FP.div (FP.fin 0) (FP.fin 0) = FP.nan
        ∧ convergenceRepeats (FP.fin 0) (FP.fin 0) (FP.fin (1 / 1000000)) = false)
    ∧ ((0 : ℚ) < 0 → FP.div (FP.fin 0) (FP.fin 0) = FP.pinf
        ∧ convergenceRepeats (FP.fin 0) (FP.fin 0) (FP.fin (1 / 1000000)) = true)
    ∧ (∀ (cells : List (ℚ × ℚ)) (vol : ℚ), (∀ p ∈ cells, p.1 = 0) →
        (integrateNorms cells vol 0 0).2 = 0) :=
  convergence_zero_norm 0 (1 / 1000000) le_rfl

/-- Counterexample to claim C8 as stated: a state in which the damage
field is identically zero but the previous field is not (one cell with
c_new = 0, c_old = 1, unit volume) integrates to crack_err_norm = 1 and
c_new_norm = 0; the quotient is +infinity, the line-854 comparison is
true, and the controller repeats the load step instead of advancing. -/
theorem convergence_inf_repeats_counterexample :
    integrateNorms [(0, 1)] 1 0 0 = (1, 0)
    ∧ convergenceRepeats (FP.fin 1) (FP.fin 0) (FP.fin (1 / 1000000)) = true := by
  constructor
  · norm_num [integrateNorms]
  · norm_num [convergenceRepeats, FP.div, FP.lt]

end BrittleFracture
